import Mathlib

set_option maxHeartbeats 1000000
set_option maxRecDepth 4000

/- Shallow embedding of src/seatplan.py (Seat Plan Adaptions).

   Sections, rows and seats are Python dicts keyed by opaque id strings and
   carrying string fields.  Python's insertion-ordered dicts are modelled as
   association lists (List (String × _)) together with the dict-assignment
   operation odSet: assignment to an existing key updates the value in place
   (keeping the key's position), assignment to a new key appends.
   Python string operations are modelled character-wise on the code-point
   list (upper(), len, slicing, startswith); this is exact for the ASCII
   labels the data model uses.  uuid-based id generation is modelled by an
   explicit generator parameter gen : Nat → String supplying the successive
   generated ids. -/

structure Seat where
  id : String
  number : String
  price : String
  status : String
  handicap : String
deriving DecidableEq, Repr

structure Row where
  row_id : String
  row_index : String
  row_price : String
  seats : List (String × Seat)
deriving DecidableEq, Repr

structure SectionData where
  section_name : String
  align : String
  price : String
  rows : List (String × Row)
deriving DecidableEq, Repr

abbrev Seatmap := List (String × SectionData)

/-- One entry of the new_rows argument of insert_rows: a dict
    with fields "index" (row label) and "labels" (seat labels). -/
structure NewRowSpec where
  index : String
  labels : List String
deriving DecidableEq, Repr

/-- Python str.upper(), character-wise (ASCII). -/
def strUpper (s : String) : String := String.mk (s.toList.map Char.toUpper)

/-- Python slicing s[n:] by characters. -/
def strDrop (s : String) (n : Nat) : String := String.mk (s.toList.drop n)

def leadChars : List Char → List Char → Bool
  | [], _ => true
  | _ :: _, [] => false
  | a :: as, b :: bs => a == b && leadChars as bs

/-- Python s.startswith(pre): strLeads pre s. -/
def strLeads (pre s : String) : Bool := leadChars pre.toList s.toList

/-- Python int() on a nonempty string of decimal digits. -/
def digitsToNat (cs : List Char) : Nat := cs.foldl (fun n c => n * 10 + (c.toNat - 48)) 0

/-- Python dict lookup d[k] / d.get(k): first entry with the given key. -/
def alistLookup {α : Type} : List (String × α) → String → Option α
  | [], _ => none
  | p :: rest, k => if p.1 = k then some p.2 else alistLookup rest k

/-- Python dict assignment d[k] = v: update in place if the key exists
    (keeping its position), otherwise append at the end. -/
def odSet {α : Type} (m : List (String × α)) (k : String) (v : α) : List (String × α) :=
  if k ∈ m.map Prod.fst then m.map (fun p => if p.1 = k then (k, v) else p)
  else m ++ [(k, v)]

/-- A Python loop "for k, x in l.items(): acc[k] = f (k, x)" over dict acc. -/
def odMapLoop {α : Type} (f : String × α → α) : List (String × α) → List (String × α) → List (String × α)
  | [], acc => acc
  | p :: rest, acc => odMapLoop f rest (odSet acc p.1 (f p))

/-- seatplan.py _natural_seat_key: letters+digits gives (letters.upper(), int(digits), s),
    digits only gives ("", int(digits), s), otherwise (s.upper(), +inf, s); the
    infinite second component is modelled by none in Option Nat. -/
def natural_seat_key (s : String) : String × Option Nat × String :=
  let cs := s.toList
  let letters := cs.takeWhile (fun c => c.isAlpha)
  let rest := cs.dropWhile (fun c => c.isAlpha)
  if letters ≠ [] ∧ rest ≠ [] ∧ rest.all (fun c => c.isDigit) then
    (strUpper (String.mk letters), some (digitsToNat rest), s)
  else if cs ≠ [] ∧ cs.all (fun c => c.isDigit) then
    ("", some (digitsToNat cs), s)
  else (strUpper s, none, s)

/-- Comparison of the numeric key component; none plays the role of +inf. -/
def optNatLtB : Option Nat → Option Nat → Bool
  | some a, some b => decide (a < b)
  | some _, none => true
  | none, _ => false

/-- Python string comparison: lexicographic by code point. -/
def charsLtB : List Char → List Char → Bool
  | [], [] => false
  | [], _ :: _ => true
  | _ :: _, [] => false
  | a :: as, b :: bs =>
    if a.toNat < b.toNat then true
    else if a.toNat = b.toNat then charsLtB as bs
    else false

/-- Python s1 < s2 on strings. -/
def strLtB (a b : String) : Bool := charsLtB a.toList b.toList

/-- Python lexicographic comparison of the 3-tuples produced by _natural_seat_key. -/
def keyLtB (a b : String × Option Nat × String) : Bool :=
  if strLtB a.1 b.1 then true
  else if a.1 = b.1 then
    if optNatLtB a.2.1 b.2.1 then true
    else if a.2.1 = b.2.1 then strLtB a.2.2 b.2.2
    else false
  else false

/-- Insert x into a sorted list, before the first element not strictly
    below it (this makes stableSort a stable sort, like Python sorted). -/
def insertSorted {α : Type} (lt : α → α → Bool) (x : α) : List α → List α
  | [] => [x]
  | y :: ys => if lt y x then y :: insertSorted lt x ys else x :: y :: ys

/-- Stable sort by a strict comparison, modelling Python sorted(key=...). -/
def stableSort {α : Type} (lt : α → α → Bool) : List α → List α
  | [] => []
  | x :: xs => insertSorted lt x (stableSort lt xs)

/-- Strict comparison of seat items by _natural_seat_key of their number. -/
def seatLtB (a b : String × Seat) : Bool :=
  keyLtB (natural_seat_key a.2.number) (natural_seat_key b.2.number)

/-- Strict comparison of new-row specs by index.upper(), the sort key of
    insert_rows in the anchorless case. -/
def specLtB (a b : NewRowSpec) : Bool := strLtB (strUpper a.index) (strUpper b.index)

/-- Python sorted(new_rows, key=index.upper(), reverse=rev): stable;
    reverse=True gives descending order with equal keys kept in input order. -/
def pySortSpecs (l : List NewRowSpec) (rev : Bool) : List NewRowSpec :=
  if rev then stableSort (fun a b => specLtB b a) l else stableSort specLtB l

/-- The inner seat-building loop of insert_rows: seats[seat_id] = seat dict,
    threading the id-generator counter. -/
def buildSeats (gen : Nat → String) (dp : String) :
    List String → Nat → List (String × Seat) → List (String × Seat) × Nat
  | [], n, acc => (acc, n)
  | label :: rest, n, acc =>
    buildSeats gen dp rest (n + 1)
      (odSet acc (gen n) { id := gen n, number := label, price := dp, status := "av", handicap := "no" })

/-- The ordered_pairs construction of insert_rows: one (row_id, row) pair per
    spec, in the decided order, threading the id-generator counter. -/
def buildPairs (gen : Nat → String) (dp : String) :
    List NewRowSpec → Nat → List (String × Row) → List (String × Row) × Nat
  | [], n, acc => (acc, n)
  | spec :: rest, n, acc =>
    let seatsRes := buildSeats gen dp spec.labels (n + 1) []
    buildPairs gen dp rest seatsRes.2
      (acc ++ [(gen n,
        { row_id := gen n
          row_index := strUpper spec.index
          row_price := dp
          seats := seatsRes.1 })])

/-- The main insertion loop of insert_rows (lines 101-115 of seatplan.py):
    walk the existing rows, and at the first row matching the anchor (or at
    the first row outright when ref is the sentinel "0") inject the new pairs
    above or below, re-adding the matched row only when ref is not "0". -/
def insert_loop (ru pos : String) (pairs : List (String × Row)) :
    List (String × Row) → List (String × Row) → Bool → List (String × Row) × Bool
  | [], upd, ins => (upd, ins)
  | p :: rest, upd, ins =>
    if ins = false ∧ (ru = "0" ∨ strUpper p.2.row_index = ru) then
      if pos = "above" then
        insert_loop ru pos pairs rest
          (if ru ≠ "0" then odSet (odMapLoop (fun q => q.2) pairs upd) p.1 p.2
           else odMapLoop (fun q => q.2) pairs upd) true
      else
        insert_loop ru pos pairs rest
          (odMapLoop (fun q => q.2) pairs (if ru ≠ "0" then odSet upd p.1 p.2 else upd)) true
    else insert_loop ru pos pairs rest (odSet upd p.1 p.2) ins

/-- seatplan.py insert_rows.  seatmap[section_id] raises KeyError when the
    section is absent; this is modelled by returning none. -/
def insert_rows (gen : Nat → String) (seatmap : Seatmap) (section_id ref_row_index : String)
    (new_rows : List NewRowSpec) (position dp : String) : Option Seatmap :=
  match alistLookup seatmap section_id with
  | none => none
  | some sec =>
    let ru := strUpper ref_row_index
    let sorted :=
      if sec.rows = [] ∨ ru = "0" ∨ ¬ (∃ p ∈ sec.rows, strUpper p.2.row_index = ru) then
        pySortSpecs new_rows (position = "above")
      else new_rows
    let pairs := (buildPairs gen dp sorted 0 []).1
    let st := insert_loop ru position pairs sec.rows [] false
    let updated_rows :=
      if st.2 = false then
        if position = "above" then
          odMapLoop (fun q => q.2) (odMapLoop (fun q => q.2) pairs [] ++ st.1) []
        else odMapLoop (fun q => q.2) pairs st.1
      else st.1
    some (odSet seatmap section_id { sec with rows := updated_rows })

/-- The per-seat relabel step of relabel_rows (lines 157-160): if the seat
    number (case-insensitively) starts with the original row label, replace
    that leading segment with the new row label. -/
def relabelSeat (original_row new_row_label : String) (sdata : Seat) : Seat :=
  if strLeads (strUpper original_row) (strUpper sdata.number) then
    { sdata with number := new_row_label ++ strDrop sdata.number original_row.length }
  else sdata

/-- The per-row body of the relabel_rows loop (lines 151-168). -/
def relabelRowFn (targets_upper : List String) (pfx : String) (rdata : Row) : Row :=
  if strUpper rdata.row_index ∈ targets_upper then
    { rdata with
        row_index := pfx ++ rdata.row_index
        seats := odMapLoop (fun q => relabelSeat rdata.row_index (pfx ++ rdata.row_index) q.2)
          rdata.seats [] }
  else rdata

/-- seatplan.py relabel_rows. -/
def relabel_rows (seatmap : Seatmap) (section_id : String)
    (target_row_letters : List String) (pfx : String) : Seatmap :=
  if target_row_letters = [] then seatmap
  else
    match alistLookup seatmap section_id with
    | none => seatmap
    | some sec =>
      let nr := odMapLoop (fun p => relabelRowFn (target_row_letters.map strUpper) pfx p.2)
        sec.rows []
      odSet seatmap section_id { sec with rows := nr }

/-- seatplan.py update_section_meta; the Python defaults new_name=None and
    new_align=None are the none cases of the Option arguments. -/
def update_section_meta (seatmap : Seatmap) (section_id : String)
    (new_name new_align : Option String) : Seatmap :=
  match alistLookup seatmap section_id with
  | none => seatmap
  | some sec =>
    let sec1 := match new_name with | some n => { sec with section_name := n } | none => sec
    let sec2 := match new_align with | some a => { sec1 with align := a } | none => sec1
    odSet seatmap section_id sec2

/-- seatplan.py reverse_section_rows_order. -/
def reverse_section_rows_order (seatmap : Seatmap) (section_id : String) : Seatmap :=
  match alistLookup seatmap section_id with
  | none => seatmap
  | some sec =>
    odSet seatmap section_id { sec with rows := odMapLoop (fun p => p.2) sec.rows.reverse [] }

/-- The per-row body of reverse_section_seat_order_selective (lines 233-244):
    a selected row has its seats sorted by the natural key and reversed. -/
def revRowFn (targets : List String) (rdata : Row) : Row :=
  if strUpper rdata.row_index ∈ targets then
    { rdata with seats := odMapLoop (fun q => q.2) (stableSort seatLtB rdata.seats).reverse [] }
  else rdata

/-- seatplan.py reverse_section_seat_order_selective. -/
def reverse_section_seat_order_selective (seatmap : Seatmap) (section_id : String)
    (rows_to_reverse : List String) : Seatmap :=
  if rows_to_reverse = [] then seatmap
  else
    match alistLookup seatmap section_id with
    | none => seatmap
    | some sec =>
      let nr := odMapLoop (fun p => revRowFn (rows_to_reverse.map strUpper) p.2) sec.rows []
      odSet seatmap section_id { sec with rows := nr }

/-- The row-filtering loop of delete_rows_with_exactly_one_seat (270-275). -/
def deleteLoop : List (String × Row) → List (String × Row) → Nat → List (String × Row) × Nat
  | [], acc, d => (acc, d)
  | p :: rest, acc, d =>
    if p.2.seats.length = 1 then deleteLoop rest acc (d + 1)
    else deleteLoop rest (odSet acc p.1 p.2) d

/-- seatplan.py delete_rows_with_exactly_one_seat. -/
def delete_rows_with_exactly_one_seat (seatmap : Seatmap) (section_id : String) :
    Seatmap × Nat :=
  match alistLookup seatmap section_id with
  | none => (seatmap, 0)
  | some sec =>
    let r := deleteLoop sec.rows [] 0
    (odSet seatmap section_id { sec with rows := r.1 }, r.2)

structure RemovalRule where
  section_name : String
  row_labels : List String
  seat_number_limit : Nat
deriving DecidableEq, Repr

structure RemovedEntry where
  section_name : String
  row_label : String
  seat_label : String
  seat_id : String
deriving DecidableEq, Repr

/-- Modelled from the spec: the numeric suffix of a seat label, the digits
    extracted from the end of the label (spec 4.6); labels without a numeric
    suffix give none and are never removed by a removal rule. -/
def trailingNat (s : String) : Option Nat :=
  let ds := (s.toList.reverse.takeWhile (fun c => c.isDigit)).reverse
  if ds = [] then none else some (digitsToNat ds)

/-- Modelled from the spec: a seat falls under a rule when its numeric suffix
    exists and is at most the rule's seat_number_limit. -/
def seatRemovableB (limit : Nat) (s : Seat) : Bool :=
  match trailingNat s.number with
  | some n => decide (n ≤ limit)
  | none => false

/-- Modelled from the spec: apply one removal rule to one row; a row whose
    label is listed loses its removable seats and reports them. -/
def applyRuleRow (rule : RemovalRule) (p : String × Row) : (String × Row) × List RemovedEntry :=
  if p.2.row_index ∈ rule.row_labels then
    ((p.1, { p.2 with seats := p.2.seats.filter (fun q => !(seatRemovableB rule.seat_number_limit q.2)) }),
     (p.2.seats.filter (fun q => seatRemovableB rule.seat_number_limit q.2)).map
       (fun q => { section_name := rule.section_name
                   row_label := p.2.row_index
                   seat_label := q.2.number
                   seat_id := q.2.id }))
  else ((p.1, p.2), [])

/-- Modelled from the spec: apply one removal rule inside one section. -/
def applyRuleSection (rule : RemovalRule) (sec : SectionData) : SectionData × List RemovedEntry :=
  let processed := sec.rows.map (applyRuleRow rule)
  ({ sec with rows := processed.map Prod.fst },
   (processed.map Prod.snd).foldr (fun a b => a ++ b) [])

/-- Modelled from the spec: locate the first section whose section_name
    equals the rule's and rewrite it; other sections pass through. -/
def applyRuleToMap (rule : RemovalRule) : Seatmap → Seatmap × List RemovedEntry
  | [] => ([], [])
  | (sid, sec) :: rest =>
    if sec.section_name = rule.section_name then
      ((sid, (applyRuleSection rule sec).1) :: rest, (applyRuleSection rule sec).2)
    else
      ((sid, sec) :: (applyRuleToMap rule rest).1, (applyRuleToMap rule rest).2)

/-- Modelled from the spec: apply_removal_rules is described in spec section
    4.6 but absent from src/seatplan.py (only this UI snapshot of the repo is
    present); for each rule in order, every row of the first section named by
    the rule whose label is in row_labels loses all seats with numeric suffix
    at most seat_number_limit, and a flat log of removed seats is
    accumulated. -/
def apply_removal_rules (seatmap : Seatmap) (rules : List RemovalRule) :
    Seatmap × List RemovedEntry :=
  rules.foldl (fun acc rule =>
    ((applyRuleToMap rule acc.1).1, acc.2 ++ (applyRuleToMap rule acc.1).2)) (seatmap, [])

/-- The sequence of row_index labels of one section, in row order. -/
def rowOrder (m : Seatmap) (sid : String) : List String :=
  match alistLookup m sid with
  | none => []
  | some sec => sec.rows.map (fun p => p.2.row_index)

/-- Relabelling one row as the spec words it: row_index gets the new
    label, each seat number starting with the old label gets the leading
    segment replaced; used to state that the implementation's dict
    plumbing computes exactly this per-row transformation. -/
def relabelRowSpec (targets_upper : List String) (pfx : String) (r : Row) : Row :=
  if strUpper r.row_index ∈ targets_upper then
    { r with
        row_index := pfx ++ r.row_index
        seats := r.seats.map (fun q => (q.1, relabelSeat r.row_index (pfx ++ r.row_index) q.2)) }
  else r

/-- Seat reversing of one row as the spec words it: natural-sort the seat
    items, then reverse that order. -/
def revRowSpec (targets : List String) (r : Row) : Row :=
  if strUpper r.row_index ∈ targets then
    { r with seats := (stableSort seatLtB r.seats).reverse }
  else r


/- ------------------------------------------------------------------ -/
/- Concrete documents used to witness the theorems below               -/
/- ------------------------------------------------------------------ -/

/-- A deterministic stand-in for the uuid-based id generator. -/
def wgen (n : Nat) : String := ["ga", "gb", "gc", "gd", "ge", "gf", "gg", "gh"].getD n "gz"

/-- A seat entry with the given id and label. -/
def mkSeatW (sid num : String) : String × Seat :=
  (sid, { id := sid, number := num, price := "85", status := "av", handicap := "no" })

def wrowA : Row :=
  { row_id := "r1", row_index := "A", row_price := "85",
    seats := [mkSeatW "s1a" "A1", mkSeatW "s1b" "A2"] }

def wrowB : Row :=
  { row_id := "r2", row_index := "B", row_price := "85",
    seats := [mkSeatW "s2a" "B1", mkSeatW "s2b" "B2"] }

def wrowC : Row :=
  { row_id := "r3", row_index := "C", row_price := "85",
    seats := [mkSeatW "s3a" "C1", mkSeatW "s3b" "C2"] }

def wrowD : Row :=
  { row_id := "r4", row_index := "D", row_price := "60",
    seats := [mkSeatW "s4a" "D1", mkSeatW "s4b" "D2"] }

def wsec : SectionData :=
  { section_name := "Stalls", align := "def", price := "85",
    rows := [("r1", wrowA), ("r2", wrowB), ("r3", wrowC)] }

def wsec2 : SectionData :=
  { section_name := "Balcony", align := "l", price := "60", rows := [("r4", wrowD)] }

def wmap : Seatmap := [("s1", wsec), ("s2", wsec2)]

def wspecT : NewRowSpec := { index := "T", labels := ["T1", "T2"] }

def wspecM : NewRowSpec := { index := "M", labels := ["M1"] }

/-- The row insert_rows builds from wspecM with generator wgen. -/
def w4newRow : Row :=
  { row_id := "ga", row_index := "M", row_price := "85",
    seats := [("gb", { id := "gb", number := "M1", price := "85", status := "av", handicap := "no" })] }

def w4expected : Seatmap :=
  [("s1", { wsec with rows := [("r1", wrowA), ("r2", wrowB), ("ga", w4newRow), ("r3", wrowC)] }),
   ("s2", wsec2)]

def wrowX : Row :=
  { row_id := "r9", row_index := "X", row_price := "85", seats := [mkSeatW "s9a" "X1"] }

def w5sec : SectionData :=
  { section_name := "Stalls", align := "def", price := "85",
    rows := [("r1", wrowA), ("r9", wrowX)] }

def w5map : Seatmap := [("s1", w5sec), ("s2", wsec2)]

def w5expected : SectionData :=
  { section_name := "Stalls", align := "def", price := "85",
    rows := [("r1", { row_id := "r1", row_index := "(RV) A", row_price := "85",
                      seats := [mkSeatW "s1a" "(RV) A1", mkSeatW "s1b" "(RV) A2"] }),
             ("r9", wrowX)] }

def wrowN : Row :=
  { row_id := "r6", row_index := "A", row_price := "85",
    seats := [mkSeatW "t1" "A1", mkSeatW "t2" "A2", mkSeatW "t3" "A10"] }

def wrowM : Row :=
  { row_id := "r7", row_index := "B", row_price := "85",
    seats := [mkSeatW "u1" "B1", mkSeatW "u2" "B2"] }

def w6sec : SectionData :=
  { section_name := "Stalls", align := "def", price := "85",
    rows := [("r6", wrowN), ("r7", wrowM)] }

def w6map : Seatmap := [("s1", w6sec)]

def w6expected : SectionData :=
  { section_name := "Stalls", align := "def", price := "85",
    rows := [("r6", { row_id := "r6", row_index := "A", row_price := "85",
                      seats := [mkSeatW "t3" "A10", mkSeatW "t2" "A2", mkSeatW "t1" "A1"] }),
             ("r7", wrowM)] }

def wrowF : Row :=
  { row_id := "rF", row_index := "F", row_price := "85",
    seats := [mkSeatW "f5" "F5", mkSeatW "f12" "F12", mkSeatW "fx" "AISLE"] }

def w8sec : SectionData :=
  { section_name := "Stalls", align := "def", price := "85", rows := [("rF", wrowF)] }

def w8map : Seatmap := [("s0", wsec2), ("st", w8sec)]

def w8rule : RemovalRule :=
  { section_name := "Stalls", row_labels := ["F"], seat_number_limit := 10 }

def w8expected : Seatmap :=
  [("s0", wsec2),
   ("st", { section_name := "Stalls", align := "def", price := "85",
            rows := [("rF", { row_id := "rF", row_index := "F", row_price := "85",
                              seats := [mkSeatW "f12" "F12", mkSeatW "fx" "AISLE"] })] })]

/- ------------------------------------------------------------------ -/
/- Helper lemmas about the ordered-dict model                          -/
/- ------------------------------------------------------------------ -/

theorem odSet_fresh {α : Type} (m : List (String × α)) (k : String) (v : α)
    (h : k ∉ m.map Prod.fst) : odSet m k v = m ++ [(k, v)] := by
  unfold odSet
  rw [if_neg h]

theorem odMapLoop_fresh {α : Type} (f : String × α → α) (l : List (String × α)) :
    ∀ acc : List (String × α),
      (∀ x ∈ l.map Prod.fst, x ∉ acc.map Prod.fst) → (l.map Prod.fst).Nodup →
      odMapLoop f l acc = acc ++ l.map (fun p => (p.1, f p)) := by
  induction l with
  | nil => intro acc _ _; simp [odMapLoop]
  | cons p rest ih =>
    intro acc h hn
    rw [List.map_cons] at hn
    have hcons := List.nodup_cons.mp hn
    have hp : p.1 ∉ acc.map Prod.fst := h p.1 (by simp)
    have h' : ∀ x ∈ rest.map Prod.fst, x ∉ (acc ++ [(p.1, f p)]).map Prod.fst := by
      intro x hx
      simp only [List.map_append, List.mem_append, List.map_cons, List.map_nil,
        List.mem_singleton, not_or]
      constructor
      · exact h x (by simp [hx])
      · intro hxe
        exact hcons.1 (hxe ▸ hx)
    rw [odMapLoop, odSet_fresh _ _ _ hp, ih _ h' hcons.2]
    simp

theorem alistLookup_mem {α : Type} (m : List (String × α)) (k : String) (v : α)
    (h : alistLookup m k = some v) : k ∈ m.map Prod.fst := by
  induction m with
  | nil => simp [alistLookup] at h
  | cons p rest ih =>
    rw [alistLookup] at h
    by_cases hk : p.1 = k
    · simp [hk]
    · rw [if_neg hk] at h
      simp [ih h]

theorem lookup_map_replace {α : Type} (m : List (String × α)) (k : String) (v : α)
    (h : k ∈ m.map Prod.fst) :
    alistLookup (m.map (fun p => if p.1 = k then (k, v) else p)) k = some v := by
  induction m with
  | nil => simp at h
  | cons p rest ih =>
    by_cases hk : p.1 = k
    · simp [alistLookup, hk]
    · rw [List.map_cons] at h
      have h' : k ∈ rest.map Prod.fst := by
        rcases List.mem_cons.mp h with h1 | h2
        · exact absurd h1.symm hk
        · exact h2
      simp only [List.map_cons, if_neg hk]
      rw [alistLookup, if_neg hk]
      exact ih h'

theorem lookup_map_replace_other {α : Type} (m : List (String × α)) (k k' : String) (v : α)
    (hne : k' ≠ k) :
    alistLookup (m.map (fun p => if p.1 = k then (k, v) else p)) k' = alistLookup m k' := by
  induction m with
  | nil => rfl
  | cons p rest ih =>
    by_cases hpk : p.1 = k
    · simp only [List.map_cons, if_pos hpk]
      rw [alistLookup, alistLookup, if_neg (fun hh => hne hh.symm), if_neg]
      · exact ih
      · rw [hpk]
        exact fun hh => hne hh.symm
    · simp only [List.map_cons, if_neg hpk]
      rw [alistLookup, alistLookup]
      by_cases hp1 : p.1 = k'
      · rw [if_pos hp1, if_pos hp1]
      · rw [if_neg hp1, if_neg hp1]
        exact ih

theorem lookup_append_single {α : Type} (m : List (String × α)) (k k' : String) (v : α)
    (hne : k' ≠ k) : alistLookup (m ++ [(k, v)]) k' = alistLookup m k' := by
  induction m with
  | nil =>
    rw [List.nil_append, alistLookup, alistLookup, if_neg (fun hh => hne hh.symm)]
    rfl
  | cons p rest ih =>
    rw [List.cons_append, alistLookup, alistLookup]
    by_cases hp1 : p.1 = k'
    · rw [if_pos hp1, if_pos hp1]
    · rw [if_neg hp1, if_neg hp1]
      exact ih

theorem lookup_odSet_self {α : Type} (m : List (String × α)) (k : String) (v w : α)
    (h : alistLookup m k = some w) : alistLookup (odSet m k v) k = some v := by
  have hk := alistLookup_mem m k w h
  unfold odSet
  rw [if_pos hk]
  exact lookup_map_replace m k v hk

theorem lookup_odSet_other {α : Type} (m : List (String × α)) (k k' : String) (v : α)
    (hne : k' ≠ k) : alistLookup (odSet m k v) k' = alistLookup m k' := by
  unfold odSet
  by_cases hk : k ∈ m.map Prod.fst
  · rw [if_pos hk]
    exact lookup_map_replace_other m k k' v hne
  · rw [if_neg hk]
    exact lookup_append_single m k k' v hne

theorem map_replace_self_id {α : Type} (m : List (String × α)) (k : String) (v : α)
    (h : alistLookup m k = some v) (hn : (m.map Prod.fst).Nodup) :
    m.map (fun p => if p.1 = k then (k, v) else p) = m := by
  induction m with
  | nil => rfl
  | cons p rest ih =>
    rw [List.map_cons] at hn
    have hcons := List.nodup_cons.mp hn
    rw [alistLookup] at h
    by_cases hpk : p.1 = k
    · rw [if_pos hpk] at h
      have hv : v = p.2 := (Option.some.injEq _ _ ▸ h).symm
      have hrest : rest.map (fun p => if p.1 = k then (k, v) else p) = rest := by
        have hmapid : rest.map (fun p => if p.1 = k then (k, v) else p) = rest.map id := by
          apply List.map_congr_left
          intro q hq
          have hqne : q.1 ≠ k := by
            intro hqk
            have hq1 : p.1 ∈ List.map Prod.fst rest := by
              rw [hpk, ← hqk]
              exact List.mem_map_of_mem Prod.fst hq
            exact hcons.1 hq1
          simp [hqne]
        simpa using hmapid
      rw [List.map_cons, if_pos hpk, hrest, hv, ← hpk]
    · rw [if_neg hpk] at h
      rw [List.map_cons, if_neg hpk, ih h hcons.2]

theorem odSet_self_id {α : Type} (m : List (String × α)) (k : String) (v : α)
    (h : alistLookup m k = some v) (hn : (m.map Prod.fst).Nodup) : odSet m k v = m := by
  unfold odSet
  rw [if_pos (alistLookup_mem m k v h)]
  exact map_replace_self_id m k v h hn

/- ------------------------------------------------------------------ -/
/- Sorting lemmas                                                      -/
/- ------------------------------------------------------------------ -/

theorem insertSorted_perm {α : Type} (lt : α → α → Bool) (x : α) (l : List α) :
    (insertSorted lt x l).Perm (x :: l) := by
  induction l with
  | nil => rw [insertSorted]
  | cons y ys ih =>
    rw [insertSorted]
    by_cases h : lt y x = true
    · rw [if_pos h]
      exact (ih.cons y).trans (List.Perm.swap x y ys)
    · rw [if_neg h]

theorem stableSort_perm {α : Type} (lt : α → α → Bool) (l : List α) :
    (stableSort lt l).Perm l := by
  induction l with
  | nil => rw [stableSort]
  | cons x xs ih =>
    rw [stableSort]
    exact (insertSorted_perm lt x (stableSort lt xs)).trans (ih.cons x)

/- ------------------------------------------------------------------ -/
/- Per-operation unfolding lemmas                                      -/
/- ------------------------------------------------------------------ -/

theorem insert_rows_absent (gen : Nat → String) (m : Seatmap) (sid ref : String)
    (nr : List NewRowSpec) (pos dp : String) (h : alistLookup m sid = none) :
    insert_rows gen m sid ref nr pos dp = none := by
  simp [insert_rows, h]

theorem relabel_rows_absent (m : Seatmap) (sid : String) (ts : List String) (pfx : String)
    (h : alistLookup m sid = none) : relabel_rows m sid ts pfx = m := by
  by_cases hts : ts = [] <;> simp [relabel_rows, hts, h]

theorem relabel_rows_empty (m : Seatmap) (sid : String) (pfx : String) :
    relabel_rows m sid [] pfx = m := by
  simp [relabel_rows]

theorem update_section_meta_absent (m : Seatmap) (sid : String) (nn na : Option String)
    (h : alistLookup m sid = none) : update_section_meta m sid nn na = m := by
  simp [update_section_meta, h]

theorem reverse_rows_absent (m : Seatmap) (sid : String)
    (h : alistLookup m sid = none) : reverse_section_rows_order m sid = m := by
  simp [reverse_section_rows_order, h]

theorem reverse_seats_absent (m : Seatmap) (sid : String) (rs : List String)
    (h : alistLookup m sid = none) : reverse_section_seat_order_selective m sid rs = m := by
  by_cases hrs : rs = [] <;> simp [reverse_section_seat_order_selective, hrs, h]

theorem reverse_seats_empty (m : Seatmap) (sid : String) :
    reverse_section_seat_order_selective m sid [] = m := by
  simp [reverse_section_seat_order_selective]

theorem delete_rows_absent (m : Seatmap) (sid : String)
    (h : alistLookup m sid = none) : delete_rows_with_exactly_one_seat m sid = (m, 0) := by
  simp [delete_rows_with_exactly_one_seat, h]

theorem deleteLoop_keep (l : List (String × Row)) :
    ∀ (acc : List (String × Row)) (d : Nat),
      (∀ p ∈ l, p.2.seats.length ≠ 1) →
      (∀ x ∈ l.map Prod.fst, x ∉ acc.map Prod.fst) → (l.map Prod.fst).Nodup →
      deleteLoop l acc d = (acc ++ l, d) := by
  induction l with
  | nil => intro acc d _ _ _; simp [deleteLoop]
  | cons p rest ih =>
    intro acc d hlen h hn
    rw [List.map_cons] at hn
    have hcons := List.nodup_cons.mp hn
    have hp : p.1 ∉ acc.map Prod.fst := h p.1 (by simp)
    have h' : ∀ x ∈ rest.map Prod.fst, x ∉ (acc ++ [p]).map Prod.fst := by
      intro x hx
      simp only [List.map_append, List.mem_append, List.map_cons, List.map_nil,
        List.mem_singleton, not_or]
      exact ⟨h x (by simp [hx]), fun hxe => hcons.1 (hxe ▸ hx)⟩
    rw [deleteLoop, if_neg (hlen p (by simp)), odSet_fresh _ _ _ hp,
      ih _ d (fun q hq => hlen q (by simp [hq])) h' hcons.2]
    simp

/-- The relabel loop body equals the spec-worded per-row transformation when
    the row's seat keys are distinct (as they are in a Python dict). -/
theorem relabelRowFn_eq_spec (tu : List String) (pfx : String) (r : Row)
    (h : (r.seats.map Prod.fst).Nodup) : relabelRowFn tu pfx r = relabelRowSpec tu pfx r := by
  unfold relabelRowFn relabelRowSpec
  by_cases ht : strUpper r.row_index ∈ tu
  · rw [if_pos ht, if_pos ht, odMapLoop_fresh _ _ _ (by simp) h]
    simp
  · rw [if_neg ht, if_neg ht]

/-- Characterization of relabel_rows on the target section: the dict plumbing
    computes exactly the per-row spec transformation, in row order. -/
theorem relabel_rows_char (m : Seatmap) (sid : String) (ts : List String) (pfx : String)
    (sec : SectionData) (hs : alistLookup m sid = some sec)
    (hrk : (sec.rows.map Prod.fst).Nodup)
    (hsk : ∀ p ∈ sec.rows, (p.2.seats.map Prod.fst).Nodup) :
    alistLookup (relabel_rows m sid ts pfx) sid =
      some { sec with rows :=
                sec.rows.map (fun p => (p.1, relabelRowSpec (ts.map strUpper) pfx p.2)) } := by
  by_cases hts : ts = []
  · subst hts
    rw [relabel_rows_empty, hs]
    simp [relabelRowSpec]
  · rw [relabel_rows, if_neg hts, hs]
    simp only
    rw [lookup_odSet_self _ _ _ sec hs, odMapLoop_fresh _ _ _ (by simp) hrk]
    simp only [List.nil_append, Option.some.injEq]
    congr 1
    apply List.map_congr_left
    intro p hp
    rw [relabelRowFn_eq_spec _ _ _ (hsk p hp)]

/-- The seat-reversing loop body equals the spec-worded per-row
    transformation when the row's seat keys are distinct. -/
theorem revRowFn_eq_spec (targets : List String) (r : Row)
    (h : (r.seats.map Prod.fst).Nodup) : revRowFn targets r = revRowSpec targets r := by
  unfold revRowFn revRowSpec
  by_cases ht : strUpper r.row_index ∈ targets
  · have hperm : ((stableSort seatLtB r.seats).reverse).Perm r.seats :=
      (List.reverse_perm _).trans (stableSort_perm _ _)
    have hkeys : (((stableSort seatLtB r.seats).reverse).map Prod.fst).Nodup :=
      ((hperm.map Prod.fst).nodup_iff).mpr h
    rw [if_pos ht, if_pos ht, odMapLoop_fresh _ _ _ (by simp) hkeys]
    simp
  · rw [if_neg ht, if_neg ht]

/-- Characterization of reverse_section_seat_order_selective on the target
    section. -/
theorem reverse_seats_char (m : Seatmap) (sid : String) (rs : List String)
    (sec : SectionData) (hs : alistLookup m sid = some sec)
    (hrk : (sec.rows.map Prod.fst).Nodup)
    (hsk : ∀ p ∈ sec.rows, (p.2.seats.map Prod.fst).Nodup) :
    alistLookup (reverse_section_seat_order_selective m sid rs) sid =
      some { sec with rows :=
                sec.rows.map (fun p => (p.1, revRowSpec (rs.map strUpper) p.2)) } := by
  by_cases hrs : rs = []
  · subst hrs
    rw [reverse_seats_empty, hs]
    simp [revRowSpec]
  · rw [reverse_section_seat_order_selective, if_neg hrs, hs]
    simp only
    rw [lookup_odSet_self _ _ _ sec hs, odMapLoop_fresh _ _ _ (by simp) hrk]
    simp only [List.nil_append, Option.some.injEq]
    congr 1
    apply List.map_congr_left
    intro p hp
    rw [revRowFn_eq_spec _ _ (hsk p hp)]

/- ------------------------------------------------------------------ -/
/- insert_rows lemmas                                                  -/
/- ------------------------------------------------------------------ -/

theorem buildPairs_rowIndexes (gen : Nat → String) (dp : String) (specs : List NewRowSpec) :
    ∀ (n : Nat) (acc : List (String × Row)),
      ((buildPairs gen dp specs n acc).1).map (fun p => p.2.row_index) =
        acc.map (fun p => p.2.row_index) ++ specs.map (fun s => strUpper s.index) := by
  induction specs with
  | nil => intro n acc; simp [buildPairs]
  | cons spec rest ih =>
    intro n acc
    rw [buildPairs]
    rw [ih]
    simp

theorem insert_loop_skip (ru pos : String) (pairs : List (String × Row))
    (pre : List (String × Row)) :
    ∀ (l upd : List (String × Row)),
      ru ≠ "0" →
      (∀ p ∈ pre, strUpper p.2.row_index ≠ ru) →
      (∀ x ∈ pre.map Prod.fst, x ∉ upd.map Prod.fst) → (pre.map Prod.fst).Nodup →
      insert_loop ru pos pairs (pre ++ l) upd false =
        insert_loop ru pos pairs l (upd ++ pre) false := by
  induction pre with
  | nil => intro l upd _ _ _ _; simp
  | cons p rest ih =>
    intro l upd hru hnm h hn
    rw [List.map_cons] at hn
    have hcons := List.nodup_cons.mp hn
    have hcond : ¬ ((false = false) ∧ (ru = "0" ∨ strUpper p.2.row_index = ru)) := by
      rintro ⟨_, h0 | hm⟩
      · exact hru h0
      · exact hnm p (by simp) hm
    have hp : p.1 ∉ upd.map Prod.fst := h p.1 (by simp)
    have h' : ∀ x ∈ rest.map Prod.fst, x ∉ (upd ++ [p]).map Prod.fst := by
      intro x hx
      simp only [List.map_append, List.mem_append, List.map_cons, List.map_nil,
        List.mem_singleton, not_or]
      exact ⟨h x (by simp [hx]), fun hxe => hcons.1 (hxe ▸ hx)⟩
    rw [List.cons_append, insert_loop, if_neg hcond, odSet_fresh _ _ _ hp,
      ih l (upd ++ [p]) hru (fun q hq => hnm q (by simp [hq])) h' hcons.2]
    simp

theorem insert_loop_done (ru pos : String) (pairs : List (String × Row))
    (l : List (String × Row)) :
    ∀ upd : List (String × Row),
      (∀ x ∈ l.map Prod.fst, x ∉ upd.map Prod.fst) → (l.map Prod.fst).Nodup →
      insert_loop ru pos pairs l upd true = (upd ++ l, true) := by
  induction l with
  | nil => intro upd _ _; simp [insert_loop]
  | cons p rest ih =>
    intro upd h hn
    rw [List.map_cons] at hn
    have hcons := List.nodup_cons.mp hn
    have hcond : ¬ ((true = false) ∧ (ru = "0" ∨ strUpper p.2.row_index = ru)) := by
      rintro ⟨h1, _⟩
      cases h1
    have hp : p.1 ∉ upd.map Prod.fst := h p.1 (by simp)
    have h' : ∀ x ∈ rest.map Prod.fst, x ∉ (upd ++ [p]).map Prod.fst := by
      intro x hx
      simp only [List.map_append, List.mem_append, List.map_cons, List.map_nil,
        List.mem_singleton, not_or]
      exact ⟨h x (by simp [hx]), fun hxe => hcons.1 (hxe ▸ hx)⟩
    rw [insert_loop, if_neg hcond, odSet_fresh _ _ _ hp, ih (upd ++ [p]) h' hcons.2]
    simp

theorem insert_loop_anchor (ru pos : String) (pairs post upd : List (String × Row))
    (aid : String) (arow : Row)
    (hmatch : strUpper arow.row_index = ru) (hru : ru ≠ "0") :
    insert_loop ru pos pairs ((aid, arow) :: post) upd false =
      if pos = "above" then
        insert_loop ru pos pairs post (odSet (odMapLoop (fun q => q.2) pairs upd) aid arow) true
      else
        insert_loop ru pos pairs post (odMapLoop (fun q => q.2) pairs (odSet upd aid arow)) true := by
  rw [insert_loop,
    if_pos (⟨rfl, Or.inr hmatch⟩ : (false = false) ∧ (ru = "0" ∨ strUpper (aid, arow).2.row_index = ru))]
  by_cases hpos : pos = "above"
  · rw [if_pos hpos, if_pos hpos, if_pos hru]
  · rw [if_neg hpos, if_neg hpos, if_pos hru]

/-- Claim C4: when some existing row's row_index case-insensitively equals
    ref_row_index and ref_row_index is not the sentinel "0", insert_rows
    injects the new rows immediately before (position "above") or after
    (position, otherwise, "below") the first such row, in the caller-supplied
    order of new_rows, retaining the anchor row and the relative order of all
    other rows; the generated rows carry the new labels upper-cased, in
    caller order. -/
theorem claim_C4 (gen : Nat → String) (m : Seatmap) (sid ref : String)
    (nr : List NewRowSpec) (pos dp : String) (sec : SectionData)
    (pre post : List (String × Row)) (aid : String) (arow : Row)
    (hlook : alistLookup m sid = some sec)
    (hrows : sec.rows = pre ++ (aid, arow) :: post)
    (hanchor : strUpper arow.row_index = strUpper ref)
    (hpre : ∀ p ∈ pre, strUpper p.2.row_index ≠ strUpper ref)
    (hsent : strUpper ref ≠ "0")
    (hfresh : ((sec.rows.map Prod.fst) ++
      (((buildPairs gen dp nr 0 []).1).map Prod.fst)).Nodup) :
    insert_rows gen m sid ref nr pos dp =
      some (odSet m sid { sec with rows :=
        if pos = "above" then
          pre ++ (buildPairs gen dp nr 0 []).1 ++ (aid, arow) :: post
        else
          pre ++ (aid, arow) :: ((buildPairs gen dp nr 0 []).1 ++ post) }) ∧
    ((buildPairs gen dp nr 0 []).1).map (fun p => p.2.row_index) =
      nr.map (fun s => strUpper s.index) := by
  constructor
  case right =>
    have h := buildPairs_rowIndexes gen dp nr 0 []
    simpa using h
  case left =>
    have hne : sec.rows ≠ [] := by
      rw [hrows]
      simp
    have hex : ∃ p ∈ sec.rows, strUpper p.2.row_index = strUpper ref := by
      refine ⟨(aid, arow), ?_, hanchor⟩
      rw [hrows]
      exact List.mem_append.mpr (Or.inr (List.mem_cons_self _ _))
    have hcond : ¬ (sec.rows = [] ∨ strUpper ref = "0" ∨
        ¬ ∃ p ∈ sec.rows, strUpper p.2.row_index = strUpper ref) := by
      rintro (h | h | h)
      · exact hne h
      · exact hsent h
      · exact h hex
    rw [hrows] at hfresh
    simp only [List.map_append, List.map_cons] at hfresh
    obtain ⟨hPAQ, hR, hdisj⟩ := List.nodup_append.mp hfresh
    obtain ⟨hP, hAQ, hdisj2⟩ := List.nodup_append.mp hPAQ
    obtain ⟨hA_Q, hQ⟩ := List.nodup_cons.mp hAQ
    have F2 : aid ∉ pre.map Prod.fst := fun hA => hdisj2 hA (List.mem_cons_self _ _)
    have F5 : ∀ x ∈ ((buildPairs gen dp nr 0 []).1).map Prod.fst, x ∉ pre.map Prod.fst :=
      fun x hx hxP => hdisj (List.mem_append.mpr (Or.inl hxP)) hx
    have F7 : aid ∉ ((buildPairs gen dp nr 0 []).1).map Prod.fst :=
      fun hx => hdisj (List.mem_append.mpr (Or.inr (List.mem_cons_self _ _))) hx
    have F8 : ∀ x ∈ post.map Prod.fst, x ∉ pre.map Prod.fst :=
      fun x hxQ hxP => hdisj2 hxP (List.mem_cons_of_mem _ hxQ)
    have F9 : ∀ x ∈ post.map Prod.fst, x ∉ ((buildPairs gen dp nr 0 []).1).map Prod.fst :=
      fun x hxQ hx => hdisj (List.mem_append.mpr (Or.inr (List.mem_cons_of_mem _ hxQ))) hx
    have hmapid : ((buildPairs gen dp nr 0 []).1).map
        (fun p => ((p.1 : String), p.2)) = (buildPairs gen dp nr 0 []).1 := by
      simp
    simp only [insert_rows, hlook]
    rw [if_neg hcond, hrows]
    rw [insert_loop_skip (strUpper ref) pos _ pre ((aid, arow) :: post) [] hsent hpre
      (by simp) hP]
    rw [List.nil_append]
    rw [insert_loop_anchor _ _ _ _ _ _ _ hanchor hsent]
    by_cases hpos : pos = "above"
    · rw [if_pos hpos, if_pos hpos]
      rw [odMapLoop_fresh _ _ _ F5 hR, hmapid]
      have haid2 : aid ∉ (pre ++ (buildPairs gen dp nr 0 []).1).map Prod.fst := by
        simp only [List.map_append, List.mem_append, not_or]
        exact ⟨F2, F7⟩
      rw [odSet_fresh _ _ _ haid2]
      have hpostfresh : ∀ x ∈ post.map Prod.fst,
          x ∉ ((pre ++ (buildPairs gen dp nr 0 []).1) ++ [(aid, arow)]).map Prod.fst := by
        intro x hx
        simp only [List.map_append, List.mem_append, List.map_cons, List.map_nil,
          List.mem_singleton, not_or]
        exact ⟨⟨F8 x hx, F9 x hx⟩, fun hxe => hA_Q (hxe ▸ hx)⟩
      rw [insert_loop_done _ _ _ _ _ hpostfresh hQ]
      simp [hpos, List.append_assoc]
    · rw [if_neg hpos, if_neg hpos]
      rw [odSet_fresh _ _ _ F2]
      have hf2 : ∀ x ∈ ((buildPairs gen dp nr 0 []).1).map Prod.fst,
          x ∉ (pre ++ [(aid, arow)]).map Prod.fst := by
        intro x hx
        simp only [List.map_append, List.mem_append, List.map_cons, List.map_nil,
          List.mem_singleton, not_or]
        exact ⟨F5 x hx, fun hxe => F7 (hxe ▸ hx)⟩
      rw [odMapLoop_fresh _ _ _ hf2 hR, hmapid]
      have hpostfresh2 : ∀ x ∈ post.map Prod.fst,
          x ∉ ((pre ++ [(aid, arow)]) ++ (buildPairs gen dp nr 0 []).1).map Prod.fst := by
        intro x hx
        simp only [List.map_append, List.mem_append, List.map_cons, List.map_nil,
          List.mem_singleton, not_or]
        exact ⟨⟨F8 x hx, fun hxe => hA_Q (hxe ▸ hx)⟩, F9 x hx⟩
      rw [insert_loop_done _ _ _ _ _ hpostfresh2 hQ]
      simp [hpos, List.append_assoc]

/- ------------------------------------------------------------------ -/
/- apply_removal_rules lemmas                                          -/
/- ------------------------------------------------------------------ -/

theorem applyRuleToMap_first (rule : RemovalRule) (pre : Seatmap) :
    ∀ (sid : String) (sec : SectionData) (post : Seatmap),
      (∀ p ∈ pre, p.2.section_name ≠ rule.section_name) →
      sec.section_name = rule.section_name →
      applyRuleToMap rule (pre ++ (sid, sec) :: post) =
        (pre ++ (sid, (applyRuleSection rule sec).1) :: post, (applyRuleSection rule sec).2) := by
  induction pre with
  | nil =>
    intro sid sec post _ hsec
    rw [List.nil_append, applyRuleToMap, if_pos hsec]
    rw [List.nil_append]
  | cons p rest ih =>
    intro sid sec post hpre hsec
    obtain ⟨psid, psec⟩ := p
    rw [List.cons_append, applyRuleToMap, if_neg (hpre (psid, psec) (by simp)),
      ih sid sec post (fun q hq => hpre q (by simp [hq])) hsec]
    simp

theorem mem_foldr_append {α : Type} (ls : List (List α)) (x : α) :
    x ∈ ls.foldr (fun a b => a ++ b) [] → ∃ l ∈ ls, x ∈ l := by
  induction ls with
  | nil => intro h; simp at h
  | cons l rest ih =>
    intro h
    rw [List.foldr_cons] at h
    rcases List.mem_append.mp h with h1 | h2
    · exact ⟨l, by simp, h1⟩
    · obtain ⟨l2, hl2, hx⟩ := ih h2
      exact ⟨l2, by simp [hl2], hx⟩

theorem seatRemovableB_spec (limit : Nat) (s : Seat) (h : seatRemovableB limit s = true) :
    ∃ n, trailingNat s.number = some n ∧ n ≤ limit := by
  unfold seatRemovableB at h
  cases htn : trailingNat s.number with
  | none => rw [htn] at h; cases h
  | some n =>
    rw [htn] at h
    exact ⟨n, rfl, by simpa using h⟩

theorem applyRuleSection_log (rule : RemovalRule) (sec : SectionData) :
    ∀ e ∈ (applyRuleSection rule sec).2,
      ∃ n, trailingNat e.seat_label = some n ∧ n ≤ rule.seat_number_limit := by
  intro e he
  unfold applyRuleSection at he
  simp only at he
  obtain ⟨l, hl, hel⟩ := mem_foldr_append _ _ he
  obtain ⟨pr, hpr, hl2⟩ := List.mem_map.mp hl
  obtain ⟨p, hp, hpr2⟩ := List.mem_map.mp hpr
  rw [← hpr2] at hl2
  unfold applyRuleRow at hl2
  by_cases ht : p.2.row_index ∈ rule.row_labels
  · rw [if_pos ht] at hl2
    simp only at hl2
    rw [← hl2] at hel
    obtain ⟨q, hq, hqe⟩ := List.mem_map.mp hel
    have hrem : seatRemovableB rule.seat_number_limit q.2 = true := (List.mem_filter.mp hq).2
    obtain ⟨n, hn, hle⟩ := seatRemovableB_spec _ _ hrem
    refine ⟨n, ?_, hle⟩
    rw [← hqe]
    exact hn
  · rw [if_neg ht] at hl2
    simp only at hl2
    rw [← hl2] at hel
    cases hel

/- ------------------------------------------------------------------ -/
/- Frame lemmas for relabelling                                        -/
/- ------------------------------------------------------------------ -/

theorem relabelSeat_frame (o n : String) (s : Seat) :
    (relabelSeat o n s).id = s.id ∧ (relabelSeat o n s).price = s.price ∧
    (relabelSeat o n s).status = s.status ∧ (relabelSeat o n s).handicap = s.handicap := by
  unfold relabelSeat
  split <;> exact ⟨rfl, rfl, rfl, rfl⟩

theorem relabelRowSpec_frame (tu : List String) (pfx : String) (r : Row) :
    (relabelRowSpec tu pfx r).row_id = r.row_id ∧
    (relabelRowSpec tu pfx r).row_price = r.row_price ∧
    (relabelRowSpec tu pfx r).seats.map Prod.fst = r.seats.map Prod.fst ∧
    (relabelRowSpec tu pfx r).seats.map (fun q => (q.2.id, q.2.price, q.2.status, q.2.handicap)) =
      r.seats.map (fun q => (q.2.id, q.2.price, q.2.status, q.2.handicap)) := by
  unfold relabelRowSpec
  split
  · refine ⟨rfl, rfl, ?_, ?_⟩
    · simp [List.map_map, Function.comp]
    · simp only [List.map_map]
      apply List.map_congr_left
      intro q hq
      simp only [Function.comp]
      obtain ⟨h1, h2, h3, h4⟩ := relabelSeat_frame r.row_index (pfx ++ r.row_index) q.2
      rw [h1, h2, h3, h4]
  · exact ⟨rfl, rfl, rfl, rfl⟩

/- ------------------------------------------------------------------ -/
/- Claims                                                              -/
/- ------------------------------------------------------------------ -/

/-- Claim C1 (code evaluation at the failing input): on a section with rows
    A, B, C, insert_rows with the sentinel ref_row_index "0" and position
    "above" treats the first existing row as a matched anchor, omits re-adding
    it, and produces row order T, B, C — dropping row A instead of the
    claimed T, A, B, C in which every pre-existing row is retained. -/
theorem claim_C1_eval :
    (insert_rows wgen wmap "s1" "0" [wspecT] "above" "85").map (fun m2 => rowOrder m2 "s1") =
      some ["T", "B", "C"] := by decide

/-- Claim C2 counterexample: relabel_rows called with an absent section_id
    silently returns the input document unchanged instead of failing with a
    lookup error as the claim requires of every core operation. -/
theorem claim_C2_counterexample :
    relabel_rows wmap "nosuch" ["A"] "(RV) " = wmap := by decide

/-- Claim C2 (amended): only insert_rows fails with a lookup error (KeyError,
    modelled as none) on an absent section_id; relabel_rows,
    update_section_meta, reverse_section_rows_order,
    reverse_section_seat_order_selective and delete_rows_with_exactly_one_seat
    silently return the document unchanged (delete also returns count 0). -/
theorem claim_C2 (gen : Nat → String) (m : Seatmap) (sid ref : String)
    (nr : List NewRowSpec) (pos dp : String) (ts : List String) (pfx : String)
    (nn na : Option String) (rs : List String)
    (h : alistLookup m sid = none) :
    insert_rows gen m sid ref nr pos dp = none ∧
    relabel_rows m sid ts pfx = m ∧
    update_section_meta m sid nn na = m ∧
    reverse_section_rows_order m sid = m ∧
    reverse_section_seat_order_selective m sid rs = m ∧
    delete_rows_with_exactly_one_seat m sid = (m, 0) :=
  ⟨insert_rows_absent gen m sid ref nr pos dp h, relabel_rows_absent m sid ts pfx h,
   update_section_meta_absent m sid nn na h, reverse_rows_absent m sid h,
   reverse_seats_absent m sid rs h, delete_rows_absent m sid h⟩

/-- Claim C2 witness: the amended statement at a concrete document with the
    absent section id "missing". -/
theorem claim_C2_witness :
    insert_rows wgen wmap "missing" "A" [wspecT] "below" "85" = none ∧
    relabel_rows wmap "missing" ["B"] "(X) " = wmap ∧
    update_section_meta wmap "missing" (some "Nm") (some "r") = wmap ∧
    reverse_section_rows_order wmap "missing" = wmap ∧
    reverse_section_seat_order_selective wmap "missing" ["B"] = wmap ∧
    delete_rows_with_exactly_one_seat wmap "missing" = (wmap, 0) :=
  claim_C2 wgen wmap "missing" "A" [wspecT] "below" "85" ["B"] "(X) "
    (some "Nm") (some "r") ["B"] (by decide)

/-- Claim C3 counterexample: insert_rows invoked on an absent section_id does
    not return the document unchanged — it raises a lookup error (KeyError,
    modelled as none), violating the claimed identity/no-op law for every
    operation of section 4. -/
theorem claim_C3_counterexample :
    insert_rows wgen wmap "nosuch" "0" [wspecT] "above" "85" = none := by decide

/-- Claim C3 (amended): the no-op law holds for relabel_rows,
    update_section_meta, reverse_section_rows_order,
    reverse_section_seat_order_selective and delete_rows_with_exactly_one_seat
    — on an absent section, an empty selection, or an unmatched delete
    predicate they return the document unchanged and return normally — but
    insert_rows with an absent section raises a lookup error instead. -/
theorem claim_C3 (gen : Nat → String) (m : Seatmap) (sidA sid ref : String)
    (nr : List NewRowSpec) (pos dp : String) (ts : List String) (pfx : String)
    (nn na : Option String) (rs : List String) (sec : SectionData)
    (hA : alistLookup m sidA = none)
    (hs : alistLookup m sid = some sec)
    (hkeys : (m.map Prod.fst).Nodup)
    (hrk : (sec.rows.map Prod.fst).Nodup)
    (hone : ∀ p ∈ sec.rows, p.2.seats.length ≠ 1) :
    (insert_rows gen m sidA ref nr pos dp = none ∧
     relabel_rows m sidA ts pfx = m ∧
     update_section_meta m sidA nn na = m ∧
     reverse_section_rows_order m sidA = m ∧
     reverse_section_seat_order_selective m sidA rs = m ∧
     delete_rows_with_exactly_one_seat m sidA = (m, 0)) ∧
    relabel_rows m sid [] pfx = m ∧
    reverse_section_seat_order_selective m sid [] = m ∧
    delete_rows_with_exactly_one_seat m sid = (m, 0) := by
  refine ⟨⟨insert_rows_absent gen m sidA ref nr pos dp hA, relabel_rows_absent m sidA ts pfx hA,
    update_section_meta_absent m sidA nn na hA, reverse_rows_absent m sidA hA,
    reverse_seats_absent m sidA rs hA, delete_rows_absent m sidA hA⟩,
    relabel_rows_empty m sid pfx, reverse_seats_empty m sid, ?_⟩
  simp only [delete_rows_with_exactly_one_seat, hs]
  rw [deleteLoop_keep sec.rows [] 0 hone (by simp) hrk]
  simp [show ({ sec with rows := sec.rows } : SectionData) = sec from rfl,
    odSet_self_id m sid sec hs hkeys]

/-- Claim C3 witness: the amended statement at a concrete document, with the
    absent section "nosuch", the present section "s1" (whose rows all have
    two seats, so the delete predicate matches nothing), and empty
    selections. -/
theorem claim_C3_witness :
    (insert_rows wgen wmap "nosuch" "B" [wspecM] "above" "85" = none ∧
     relabel_rows wmap "nosuch" ["A"] "(RV) " = wmap ∧
     update_section_meta wmap "nosuch" (some "N") (some "l") = wmap ∧
     reverse_section_rows_order wmap "nosuch" = wmap ∧
     reverse_section_seat_order_selective wmap "nosuch" ["A"] = wmap ∧
     delete_rows_with_exactly_one_seat wmap "nosuch" = (wmap, 0)) ∧
    relabel_rows wmap "s1" [] "(RV) " = wmap ∧
    reverse_section_seat_order_selective wmap "s1" [] = wmap ∧
    delete_rows_with_exactly_one_seat wmap "s1" = (wmap, 0) :=
  claim_C3 wgen wmap "nosuch" "s1" "B" [wspecM] "above" "85" ["A"] "(RV) "
    (some "N") (some "l") ["A"] wsec (by decide) (by decide) (by decide) (by decide) (by decide)

/-- Claim C4 witness: inserting new row M below anchor B in rows A, B, C
    gives A, B, M, C with the anchor retained and the generated row carrying
    fresh ids. -/
theorem claim_C4_witness :
    insert_rows wgen wmap "s1" "B" [wspecM] "below" "85" = some w4expected :=
  (claim_C4 wgen wmap "s1" "B" [wspecM] "below" "85" wsec [("r1", wrowA)] [("r3", wrowC)]
    "r2" wrowB (by decide) (by decide) (by decide) (by decide) (by decide) (by decide)).1.trans
    (by decide)

/-- Claim C5: relabel_rows replaces row_index of every case-insensitively
    targeted row by the prefix plus the original label, rewrites each of its
    seats whose number case-insensitively starts with the original label by
    substituting the new prefixed label for that leading segment (preserving
    the remainder), and passes non-matching rows and seats through
    unchanged — expressed by the per-row transformation relabelRowSpec and
    the per-seat transformation relabelSeat. -/
theorem claim_C5 (m : Seatmap) (sid : String) (ts : List String) (pfx : String)
    (sec : SectionData) (hs : alistLookup m sid = some sec)
    (hrk : (sec.rows.map Prod.fst).Nodup)
    (hsk : ∀ p ∈ sec.rows, (p.2.seats.map Prod.fst).Nodup) :
    alistLookup (relabel_rows m sid ts pfx) sid =
      some { sec with rows :=
                sec.rows.map (fun p => (p.1, relabelRowSpec (ts.map strUpper) pfx p.2)) } :=
  relabel_rows_char m sid ts pfx sec hs hrk hsk

/-- Claim C5 witness: relabelling row A with prefix "(RV) " turns row_index
    "A" into "(RV) A" and seats A1, A2 into "(RV) A1", "(RV) A2", while the
    seat X1 of the untargeted row X is untouched. -/
theorem claim_C5_witness :
    alistLookup (relabel_rows w5map "s1" ["A"] "(RV) ") "s1" = some w5expected :=
  (claim_C5 w5map "s1" ["A"] "(RV) " w5sec (by decide) (by decide) (by decide)).trans (by decide)

/-- Claim C6: reverse_section_seat_order_selective rewrites every selected
    row's seats into the reverse of their natural-key sort (letters
    component, then numeric value) while unselected rows pass through
    unchanged, and the reordered seat list is a permutation of the original
    one — seat entries (labels and all fields) are preserved, only the
    iteration order changes. -/
theorem claim_C6 (m : Seatmap) (sid : String) (rs : List String) (sec : SectionData)
    (hs : alistLookup m sid = some sec)
    (hrk : (sec.rows.map Prod.fst).Nodup)
    (hsk : ∀ p ∈ sec.rows, (p.2.seats.map Prod.fst).Nodup) :
    alistLookup (reverse_section_seat_order_selective m sid rs) sid =
      some { sec with rows :=
                sec.rows.map (fun p => (p.1, revRowSpec (rs.map strUpper) p.2)) } ∧
    ∀ p ∈ sec.rows, ((stableSort seatLtB p.2.seats).reverse).Perm p.2.seats :=
  ⟨reverse_seats_char m sid rs sec hs hrk hsk,
   fun _ _ => (List.reverse_perm _).trans (stableSort_perm _ _)⟩

/-- Claim C6 witness: the selected row with seats A1, A2, A10 ends in order
    A10, A2, A1 (natural order reversed, labels unchanged); the unselected
    row B passes through unchanged. -/
theorem claim_C6_witness :
    alistLookup (reverse_section_seat_order_selective w6map "s1" ["A"]) "s1" =
      some w6expected :=
  (claim_C6 w6map "s1" ["A"] w6sec (by decide) (by decide) (by decide)).1.trans (by decide)

/-- Claim C7 counterexample: calling update_section_meta with new_name equal
    to the empty string does not leave section_name unchanged — the code
    tests "is not None", not non-emptiness, so the empty string overwrites
    the previous name "Stalls". -/
theorem claim_C7_counterexample :
    (alistLookup (update_section_meta wmap "s1" (some "") none) "s1").map
        (fun s => s.section_name) = some "" ∧
    wsec.section_name = "Stalls" := by decide

/-- Claim C7 (amended): update_section_meta sets section_name and align on
    the target section whenever the corresponding argument is provided (not
    None) — an empty string counts as provided and overwrites — and leaves a
    field untouched exactly when its argument is None. -/
theorem claim_C7 (m : Seatmap) (sid : String) (nn na : Option String) (sec : SectionData)
    (hs : alistLookup m sid = some sec) :
    alistLookup (update_section_meta m sid nn na) sid =
      some { sec with
               section_name := nn.getD sec.section_name
               align := na.getD sec.align } := by
  simp only [update_section_meta, hs]
  cases nn <;> cases na <;> (rw [lookup_odSet_self m sid _ sec hs]) <;> rfl

/-- Claim C7 witness: providing both arguments rewrites both fields. -/
theorem claim_C7_witness :
    alistLookup (update_section_meta wmap "s1" (some "Grand") (some "l")) "s1" =
      some { wsec with section_name := "Grand", align := "l" } :=
  (claim_C7 wmap "s1" (some "Grand") (some "l") wsec (by decide)).trans (by decide)

/-- Claim C8 (modelled from the spec, section 4.6): apply_removal_rules
    locates the first section whose section_name equals the rule's, leaves
    every other section untouched, replaces each row whose label is listed in
    row_labels by the same row with every seat of numeric suffix at most
    seat_number_limit removed, leaves unlisted rows unchanged, and returns a
    flat log in which every removed seat has a numeric suffix at most the
    limit — so seats with non-numeric labels are never removed. -/
theorem claim_C8 (m : Seatmap) (rule : RemovalRule) (pre post : Seatmap) (sid : String)
    (sec : SectionData)
    (hm : m = pre ++ (sid, sec) :: post)
    (hpre : ∀ p ∈ pre, p.2.section_name ≠ rule.section_name)
    (hsec : sec.section_name = rule.section_name) :
    apply_removal_rules m [rule] =
      (pre ++ (sid, (applyRuleSection rule sec).1) :: post, (applyRuleSection rule sec).2) ∧
    (applyRuleSection rule sec).1.rows = sec.rows.map (fun p => (applyRuleRow rule p).1) ∧
    (∀ p ∈ sec.rows, p.2.row_index ∈ rule.row_labels →
      (applyRuleRow rule p).1 =
        (p.1, { p.2 with
                  seats := p.2.seats.filter
                    (fun q => !(seatRemovableB rule.seat_number_limit q.2)) })) ∧
    (∀ p ∈ sec.rows, p.2.row_index ∉ rule.row_labels → (applyRuleRow rule p).1 = p) ∧
    (∀ e ∈ (apply_removal_rules m [rule]).2,
      ∃ n, trailingNat e.seat_label = some n ∧ n ≤ rule.seat_number_limit) := by
  have hmap := applyRuleToMap_first rule pre sid sec post hpre hsec
  have h1 : apply_removal_rules m [rule] =
      (pre ++ (sid, (applyRuleSection rule sec).1) :: post, (applyRuleSection rule sec).2) := by
    simp only [apply_removal_rules, List.foldl_cons, List.foldl_nil, List.nil_append]
    rw [hm, hmap]
  refine ⟨h1, by simp [applyRuleSection], ?_, ?_, ?_⟩
  · intro p hp ht
    simp [applyRuleRow, ht]
  · intro p hp ht
    simp [applyRuleRow, ht]
  · intro e he
    rw [h1] at he
    exact applyRuleSection_log rule sec e he

/-- Claim C8 witness: the rule for section Stalls, rows F, limit 10 applied
    to row F with seats F5, F12 and the non-numeric AISLE removes F5 only
    (F12 exceeds the limit, AISLE has no numeric suffix) and logs it. -/
theorem claim_C8_witness :
    apply_removal_rules w8map [w8rule] =
      (w8expected,
       [{ section_name := "Stalls", row_label := "F", seat_label := "F5", seat_id := "f5" }]) :=
  (claim_C8 w8map w8rule [("s0", wsec2)] [] "st" w8sec (by decide) (by decide) (by decide)).1.trans
    (by decide)

/-- Claim C10: relabel_rows changes only row_index of matched rows and the
    number of their matched seats — every other section of the seatmap is
    returned identical to the input, and on the target section the
    section metadata, the row-id sequence (set and iteration order), each
    row's row_id and row_price, each row's seat-id sequence, and every seat's
    id, price, status and handicap are preserved. -/
theorem claim_C10 (m : Seatmap) (sid : String) (ts : List String) (pfx : String)
    (sec : SectionData) (hs : alistLookup m sid = some sec)
    (hrk : (sec.rows.map Prod.fst).Nodup)
    (hsk : ∀ p ∈ sec.rows, (p.2.seats.map Prod.fst).Nodup) :
    (∀ s2, s2 ≠ sid → alistLookup (relabel_rows m sid ts pfx) s2 = alistLookup m s2) ∧
    (alistLookup (relabel_rows m sid ts pfx) sid).map
        (fun s => (s.section_name, s.align, s.price)) =
      some (sec.section_name, sec.align, sec.price) ∧
    (alistLookup (relabel_rows m sid ts pfx) sid).map (fun s => s.rows.map Prod.fst) =
      some (sec.rows.map Prod.fst) ∧
    (alistLookup (relabel_rows m sid ts pfx) sid).map
        (fun s => s.rows.map (fun p => p.2.row_id)) =
      some (sec.rows.map (fun p => p.2.row_id)) ∧
    (alistLookup (relabel_rows m sid ts pfx) sid).map
        (fun s => s.rows.map (fun p => p.2.row_price)) =
      some (sec.rows.map (fun p => p.2.row_price)) ∧
    (alistLookup (relabel_rows m sid ts pfx) sid).map
        (fun s => s.rows.map (fun p => p.2.seats.map Prod.fst)) =
      some (sec.rows.map (fun p => p.2.seats.map Prod.fst)) ∧
    (alistLookup (relabel_rows m sid ts pfx) sid).map
        (fun s => s.rows.map (fun p => p.2.seats.map
          (fun q => (q.2.id, q.2.price, q.2.status, q.2.handicap)))) =
      some (sec.rows.map (fun p => p.2.seats.map
        (fun q => (q.2.id, q.2.price, q.2.status, q.2.handicap)))) := by
  have hchar := relabel_rows_char m sid ts pfx sec hs hrk hsk
  refine ⟨?_, ?_, ?_, ?_, ?_, ?_, ?_⟩
  · intro s2 hne
    by_cases hts : ts = []
    · subst hts
      rw [relabel_rows_empty]
    · rw [relabel_rows, if_neg hts, hs]
      simp only
      exact lookup_odSet_other m sid s2 _ hne
  · rw [hchar]
    simp
  · rw [hchar]
    simp [List.map_map, Function.comp]
  · rw [hchar]
    simp only [Option.map_some', Option.some.injEq, List.map_map]
    apply List.map_congr_left
    intro p hp
    simp only [Function.comp]
    exact (relabelRowSpec_frame (ts.map strUpper) pfx p.2).1
  · rw [hchar]
    simp only [Option.map_some', Option.some.injEq, List.map_map]
    apply List.map_congr_left
    intro p hp
    simp only [Function.comp]
    exact (relabelRowSpec_frame (ts.map strUpper) pfx p.2).2.1
  · rw [hchar]
    simp only [Option.map_some', Option.some.injEq, List.map_map]
    apply List.map_congr_left
    intro p hp
    simp only [Function.comp]
    exact (relabelRowSpec_frame (ts.map strUpper) pfx p.2).2.2.1
  · rw [hchar]
    simp only [Option.map_some', Option.some.injEq, List.map_map]
    apply List.map_congr_left
    intro p hp
    simp only [Function.comp]
    exact (relabelRowSpec_frame (ts.map strUpper) pfx p.2).2.2.2

/-- Claim C10 witness: relabelling row A in section s1 leaves section s2
    identical, keeps the row-id order r1, r9, and keeps each row's seat-id
    order. -/
theorem claim_C10_witness :
    alistLookup (relabel_rows w5map "s1" ["A"] "(RV) ") "s2" = alistLookup w5map "s2" ∧
    (alistLookup (relabel_rows w5map "s1" ["A"] "(RV) ") "s1").map
        (fun s => s.rows.map Prod.fst) = some ["r1", "r9"] ∧
    (alistLookup (relabel_rows w5map "s1" ["A"] "(RV) ") "s1").map
        (fun s => s.rows.map (fun p => p.2.seats.map Prod.fst)) =
      some [["s1a", "s1b"], ["s9a"]] := by
  have h := claim_C10 w5map "s1" ["A"] "(RV) " w5sec (by decide) (by decide) (by decide)
  exact ⟨h.1 "s2" (by decide), h.2.2.1.trans (by decide),
    h.2.2.2.2.2.1.trans (by decide)⟩
